import Mathlib

/-!
Shallow embedding of the CIVET documentation extension
(python/MooseDocs/extensions/civet.py).

Python dicts are modelled as association lists in insertion order; dict
lookup, item assignment and dict.update are the functions dictGet,
dictInsert and dictUpdate below.  Fallible python code (attribute errors
on None) is modelled with Except.  The external mooseutils helpers
(git queries and the CIVET fetch/cache) are modelled as oracle functions
carried in a FetchEnv record; this file only embeds the glue logic of
civet.py itself.
-/

/-- One CI outcome record as stored in the result database:
a status string, the recipe that produced it, and the base job url. -/
structure JobResult where
  status : String
  recipe : String
  url : String
deriving DecidableEq

/-- Results for one test: python dict mapping a job id to the ordered list
of its individual result records. -/
abbrev JobResults := List (String × List JobResult)

/-- The result store (CivetExtension.__database): python dict mapping a
fully qualified test name to its job results. -/
abbrev ResultStore := List (String × JobResults)

/-- Python dict.get(k): the first binding of the key, if any. -/
def dictGet {α : Type} (d : List (String × α)) (k : String) : Option α :=
  (d.find? (fun p => p.1 == k)).map (fun p => p.2)

/-- Python item assignment d[k] = v: replace the binding in place when the
key is present, otherwise append a new binding. -/
def dictInsert {α : Type} (d : List (String × α)) (k : String) (v : α) :
    List (String × α) :=
  if d.any (fun p => p.1 == k) then
    d.map (fun p => if p.1 == k then (k, v) else p)
  else d ++ [(k, v)]

/-- Python dict.update(other): assign every binding of other, in order,
so bindings of other overwrite bindings of d with the same key. -/
def dictUpdate {α : Type} (d other : List (String × α)) : List (String × α) :=
  other.foldl (fun acc p => dictInsert acc p.1 p.2) d

/-- The token produced by the badges command (civet.py line 27):
an optional page-level name space and the requested test names. -/
structure CivetTestBadges where
  pfx : Option String
  tests : List String
deriving DecidableEq

/-- The token produced by the report command (civet.py line 28). -/
structure CivetTestReport where
  pfx : Option String
  tests : List String
deriving DecidableEq

/-- Fully qualified test name used for the store lookup
(civet.py lines 261 and 298): either pfx.test or the bare test name. -/
def tnameOf (pfx : Option String) (test : String) : String :=
  match pfx with
  | some p => p ++ "." ++ test
  | none => test

/-- One step of counts[status] += 1 on a collections.defaultdict(int):
bump the existing binding in place, or append a fresh binding with 1. -/
def bumpCount (counts : List (String × Nat)) (k : String) : List (String × Nat) :=
  if counts.any (fun p => p.1 == k) then
    counts.map (fun p => if p.1 == k then (k, p.2 + 1) else p)
  else counts ++ [(k, 1)]

/-- The counting loop of RenderCivetTestBadges.createMaterialize
(civet.py lines 264-267): over all jobs, over each record, bump the
record's status. -/
def countStatuses (results : JobResults) : List (String × Nat) :=
  results.foldl (fun acc jr => jr.2.foldl (fun a r => bumpCount a r.status) acc) []

/-- Count map computed for one requested test (civet.py lines 262-267):
empty when the store has no entry for the name (results is None) and also
when the entry is an empty, hence falsy, dict. -/
def badgeCounts (store : ResultStore) (tname : String) : List (String × Nat) :=
  match dictGet store tname with
  | none => []
  | some results => if results.isEmpty then [] else countStatuses results

/-- Count of a status in a count map, defaulting to 0 like defaultdict. -/
def lookupCount (counts : List (String × Nat)) (s : String) : Nat :=
  (dictGet counts s).getD 0

/-- Number of individual result records carrying a given status, summed
over all jobs and recipes of one store entry. -/
def numWithStatus (results : JobResults) (s : String) : Nat :=
  (results.flatMap (fun jr => jr.2)).countP (fun r => r.status == s)

/-- One rendered badge element (civet.py lines 278-281): the string
content is str(count), the caption the status, the data-status attribute
the lower-cased status. -/
structure Badge where
  label : String
  caption : String
  dataStatus : String
deriving DecidableEq

/-- Badge built from one binding of the count map. -/
def mkBadge (kv : String × Nat) : Badge :=
  { label := Nat.repr kv.2, caption := kv.1, dataStatus := kv.1.toLower }

/-- Everything the badge renderer emits for one requested test
(civet.py lines 260-284): the wrapper (a link to the generated report
page when one exists, else a plain span, modelled by linkBase), the badge
elements, and whether this test adds the moose-civet-fail class to the
grandparent container.  The concrete relative href computed via
os.path.relpath is filesystem work and is not modelled beyond the page
base name. -/
structure BadgeGroup where
  linkBase : Option String
  badges : List Badge
  failFlag : Bool
deriving DecidableEq

/-- Rendering of one test inside the badges div: numbers is the
extension's test-number table and hasReports its report flag. -/
def badgesForTest (store : ResultStore) (numbers : List (String × String))
    (hasReports : Bool) (pfx : Option String) (test : String) : BadgeGroup :=
  let tname := tnameOf pfx test
  let counts := badgeCounts store tname
  let base := dictGet numbers tname
  { linkBase := if hasReports && base.isSome then base else none
  , badges := counts.map mkBadge
  , failFlag := !(counts.any (fun p => p.1 == "OK")) }

/-- One rendered report table row (civet.py lines 311-318): the status
cell text, its data-status styling attribute, the job cell text and link
target, and the recipe cell text. -/
structure ReportRow where
  statusText : String
  statusAttr : String
  jobText : String
  jobHref : String
  recipe : String
deriving DecidableEq

/-- Row built for one record of one job. -/
def mkRow (job : String) (item : JobResult) : ReportRow :=
  { statusText := item.status
  , statusAttr := item.status.toLower
  , jobText := job
  , jobHref := item.url ++ "/job/" ++ job
  , recipe := item.recipe }

/-- One rendered report table: the header cells and the data rows. -/
structure ReportTable where
  header : List String
  rows : List ReportRow
deriving DecidableEq

/-- The row loop of RenderCivetTestReport.createMaterialize
(civet.py lines 309-318): one row per record of each job, in order. -/
def reportRows (results : JobResults) : List ReportRow :=
  results.flatMap (fun jr => jr.2.map (mkRow jr.1))

/-- RenderCivetTestReport.createMaterialize restricted to one requested
name (civet.py lines 297-318).  The store lookup may return None and the
code iterates it with no guard, so a missing entry raises AttributeError,
modelled as Except.error. -/
def reportForTest (store : ResultStore) (pfx : Option String) (key : String) :
    Except String ReportTable :=
  match dictGet store (tnameOf pfx key) with
  | none => Except.error "AttributeError: NoneType object has no attribute items"
  | some results =>
      Except.ok { header := ["Status", "Job", "Recipe"], rows := reportRows results }

/-- Sequential processing of the requested names of a report token; the
first missing entry aborts rendering with the exception. -/
def reportTables (store : ResultStore) (pfx : Option String) :
    List String → Except String (List ReportTable)
  | [] => Except.ok []
  | k :: rest => do
    let t ← reportForTest store pfx k
    let ts ← reportTables store pfx rest
    pure (t :: ts)

/-- One remote category from the remotes configuration (civet.py line 36):
a dict whose required keys are url and repo, with optional location,
download_test_results and test_results_cache overrides. -/
structure Category where
  location : Option String
  download_test_results : Option Bool
  test_results_cache : Option String
  url : String
  repo : String
deriving DecidableEq

/-- The extension configuration keys used by init (defaultConfig,
civet.py lines 34-45), with the two global defaults already resolved. -/
structure Config where
  remotes : List (String × Category)
  branch : String
  author : String
  download_test_results : Bool
  generate_test_reports : Bool
  test_reports_location : String
  test_results_cache : String

/-- Arguments of one mooseutils.get_civet_results call
(civet.py lines 103-108); cache equals local in the source. -/
structure FetchCall where
  localCache : String
  hashes : Option (List String)
  site : String × String
  possible : List String
deriving DecidableEq

/-- The external mooseutils collaborators used by init, modelled as
oracle functions: the branch and author checks, the documentation root
directory, the commit-hash lookup (keyed by working directory; the start
and author arguments are fixed by the configuration), and the result
fetch. -/
structure FetchEnv where
  gitIsBranch : String → Bool
  gitIsAuthor : String → Bool
  rootDir : String
  gitCivetHashes : String → List String
  getCivetResults : FetchCall → ResultStore

/-- Working directory for one category (civet.py line 94). -/
def workingDirOf (env : FetchEnv) (cat : Category) : String :=
  cat.location.getD env.rootDir

/-- Effective download flag for one category (civet.py line 97). -/
def downloadOf (cfg : Config) (cat : Category) : Bool :=
  cat.download_test_results.getD cfg.download_test_results

/-- Effective results cache for one category (civet.py line 101). -/
def cacheOf (cfg : Config) (cat : Category) : String :=
  cat.test_results_cache.getD cfg.test_results_cache

/-- The get_civet_results call issued for one category
(civet.py lines 96-108): hashes stay None unless the category downloads,
and the accepted statuses are fixed. -/
def callOf (cfg : Config) (env : FetchEnv) (nc : String × Category) : FetchCall :=
  { localCache := cacheOf cfg nc.2
  , hashes :=
      if downloadOf cfg nc.2 then some (env.gitCivetHashes (workingDirOf env nc.2))
      else none
  , site := (nc.2.url, nc.2.repo)
  , possible := ["OK", "FAIL", "DIFF", "TIMEOUT"] }

/-- The fetch phase of CivetExtension.init (civet.py lines 85-110):
when the branch and author checks pass, fold over the configured remote
categories, merging each category's results into the database with
dict.update.  Besides the database, the embedding records the list of
get_civet_results calls made and the names of the categories for which a
git_civet_hashes lookup ran. -/
def fetchStep (cfg : Config) (env : FetchEnv)
    (acc : ResultStore × List FetchCall × List String) (nc : String × Category) :
    ResultStore × List FetchCall × List String :=
  let call := callOf cfg env nc
  let localDb := env.getCivetResults call
  (dictUpdate acc.1 localDb,
   acc.2.1 ++ [call],
   if downloadOf cfg nc.2 then acc.2.2 ++ [nc.1] else acc.2.2)

def fetchPhase (cfg : Config) (env : FetchEnv) :
    ResultStore × List FetchCall × List String :=
  if env.gitIsBranch cfg.branch && env.gitIsAuthor cfg.author then
    cfg.remotes.foldl (fetchStep cfg env) ([], [], [])
  else ([], [], [])

/-- A page handed to translator.addPage during init
(civet.py lines 122-137): its full name, whether it is a Source page
(rather than the report-root Directory), and its key setting. -/
structure PageSpec where
  fullname : String
  isSource : Bool
  key : Option String
deriving DecidableEq

/-- State established by CivetExtension.init: the pages added, the
__test_result_numbers table, the __has_test_reports flag, and the final
value of the generate_test_reports option. -/
structure InitState where
  pages : List PageSpec
  numbers : List (String × String)
  hasReports : Bool
  genReports : Bool
deriving DecidableEq

/-- Base file name assigned to the i-th store key (civet.py line 131). -/
def resultName (i : Nat) : String := "result_" ++ Nat.repr i

/-- The result page created for the i-th store key (civet.py lines 135-137). -/
def mkResultPage (root : String) (i : Nat) (key : String) : PageSpec :=
  { fullname := root ++ "/" ++ resultName i ++ ".md", isSource := true, key := some key }

/-- The index page created at the report root (civet.py lines 125-127). -/
def mkIndexPage (root : String) : PageSpec :=
  { fullname := root ++ "/index.md", isSource := true, key := none }

/-- One iteration of the result-page loop of init (civet.py lines
130-137): append the page for the current key, record its name, and
advance the counter. -/
def initStep (root : String) (acc : List PageSpec × List (String × String) × Nat)
    (kv : String × JobResults) : List PageSpec × List (String × String) × Nat :=
  (acc.1 ++ [mkResultPage root acc.2.2 kv.1],
   dictInsert acc.2.1 kv.1 (resultName acc.2.2),
   acc.2.2 + 1)

/-- The report-generation phase of CivetExtension.init
(civet.py lines 112-139) applied to the fetched database: an empty
database force-disables the generate_test_reports option; when the option
survives, the report-root directory is ensured, the index page added, and
one result page per database key added in iteration order with sequential
names, recording each key's name in the numbers table. -/
def civetInitReports (db : ResultStore) (genOpt : Bool) (root : String)
    (dirExists : Bool) : InitState :=
  let gen := if db.isEmpty && genOpt then false else genOpt
  if gen then
    let dirPages : List PageSpec := if dirExists then [] else [⟨root, false, none⟩]
    let start := (dirPages ++ [mkIndexPage root], ([] : List (String × String)), 0)
    let fin := db.foldl (initStep root) start
    { pages := fin.1, numbers := fin.2.1, hasReports := true, genReports := gen }
  else
    { pages := [], numbers := [], hasReports := false, genReports := gen }

/-- CivetExtension.testBaseFileName (civet.py lines 75-79). -/
def testBaseFileName (st : InitState) (test : String) : Option String :=
  dictGet st.numbers test

/-- CivetExtension.hasTestReports (civet.py lines 53-55). -/
def hasTestReports (st : InitState) : Bool := st.hasReports

/-- CivetExtension.init in full (civet.py lines 81-139): the fetch phase
followed by report generation. -/
def civetInit (cfg : Config) (env : FetchEnv) (dirExists : Bool) : InitState :=
  civetInitReports (fetchPhase cfg env).1 cfg.generate_test_reports
    cfg.test_reports_location dirExists

/-- Specification helper: the result pages created for a database when
the counter starts at c, one page per key in iteration order. -/
def resultPagesFrom (root : String) (c : Nat) : ResultStore → List PageSpec
  | [] => []
  | kv :: t => mkResultPage root c kv.1 :: resultPagesFrom root (c + 1) t

/-- Specification helper: the numbers-table bindings created for a
database when the counter starts at c. -/
def numbersFrom (c : Nat) : ResultStore → List (String × String)
  | [] => []
  | kv :: t => (kv.1, resultName c) :: numbersFrom (c + 1) t

/-- The settings accepted by every civet command (civet.py lines 169-175). -/
structure CivetSettings where
  remote : Option String
  url : Option String
  repo : Option String
deriving DecidableEq

/-- CivetCommandBase.getCivetInfo (civet.py lines 177-186).  With at
least one configured remote, the requested (or first) category is looked
up with dict.get; a bad explicit remote name makes that lookup return
None and the following subscript raise, modelled as Except.error.  With
no remotes, the explicit settings are returned as they are, absent ones
included.  (Python or-chains treat the empty string like None; the model
uses Option only.) -/
def getCivetInfo (remotes : List (String × Category)) (settings : CivetSettings) :
    Except String (Option String × Option String) :=
  match remotes with
  | [] => Except.ok (settings.url, settings.repo)
  | (k0, _) :: _ =>
      let k := settings.remote.getD k0
      match dictGet remotes k with
      | none => Except.error "TypeError: NoneType object is not subscriptable"
      | some category =>
          Except.ok (some (settings.url.getD category.url),
                     some (settings.repo.getD category.repo))

/-- Markup node produced by the results command: a core.Link with its url
and optional string content, or a non-link placeholder. -/
inductive Element where
  | link (url : String) (text : Option String)
  | span (text : Option String)
deriving DecidableEq

/-- Whether an element is a link. -/
def Element.isLink : Element → Bool
  | .link _ _ => true
  | _ => false

/-- Python str.format of a possibly absent value: None prints as None. -/
def formatOpt : Option String → String
  | some s => s
  | none => "None"

/-- CivetResultsCommand.createToken (civet.py lines 215-222); sha is the
current commit reported by mooseutils.git_commit(). -/
def resultsCreateToken (remotes : List (String × Category))
    (settings : CivetSettings) (sha : String) (inline : Bool) :
    Except String Element := do
  let si ← getCivetInfo remotes settings
  let url := formatOpt si.1 ++ "/sha_events/" ++ formatOpt si.2 ++ "/" ++ sha
  if inline then
    pure (Element.link url none)
  else
    pure (Element.link url (some sha))

namespace RenderCivetTestBadges

/-- RenderCivetTestBadges.createLatex (civet.py lines 250-251): the body
is pass, so any parent is left unchanged whatever the token and page. -/
def createLatex {α : Type} (parent : α) (token : CivetTestBadges) (page : String) : α :=
  parent

/-- RenderCivetTestBadges.createHTML (civet.py lines 253-254): pass. -/
def createHTML {α : Type} (parent : α) (token : CivetTestBadges) (page : String) : α :=
  parent

/-- RenderCivetTestBadges.createMaterialize (civet.py lines 256-284) over
a whole badges token: one badge group per requested test, and the
moose-civet-fail class lands on the grandparent as soon as any requested
test lacks an OK count. -/
def createMaterialize (store : ResultStore) (numbers : List (String × String))
    (hasReports : Bool) (token : CivetTestBadges) : List BadgeGroup × Bool :=
  let groups := token.tests.map (badgesForTest store numbers hasReports token.pfx)
  (groups, groups.any (fun g => g.failFlag))

end RenderCivetTestBadges

namespace RenderCivetTestReport

/-- RenderCivetTestReport.createLatex (civet.py lines 288-289): pass. -/
def createLatex {α : Type} (parent : α) (token : CivetTestReport) (page : String) : α :=
  parent

/-- RenderCivetTestReport.createHTML (civet.py lines 291-292): pass. -/
def createHTML {α : Type} (parent : α) (token : CivetTestReport) (page : String) : α :=
  parent

/-- RenderCivetTestReport.createMaterialize (civet.py lines 294-318) over
a whole report token: one table per requested name, aborting with the
AttributeError when a name has no store entry. -/
def createMaterialize (store : ResultStore) (token : CivetTestReport) :
    Except String (List ReportTable) :=
  reportTables store token.pfx token.tests

end RenderCivetTestReport

/-- Numeric value of a decimal digit character (for decoding Nat.repr). -/
def charVal (c : Char) : Nat := c.toNat - 48

/-- Decimal value of a digit-character string, most significant first. -/
def ofDigitChars (l : List Char) : Nat :=
  l.foldl (fun acc c => acc * 10 + charVal c) 0

/-! Helper lemmas about the dict model. -/

theorem dictGet_nil {α : Type} (k : String) : dictGet ([] : List (String × α)) k = none :=
  rfl

theorem dictGet_cons {α : Type} (a : String × α) (t : List (String × α)) (k : String) :
    dictGet (a :: t) k = if a.1 == k then some a.2 else dictGet t k := by
  by_cases h : a.1 == k <;> simp [dictGet, List.find?_cons, h]

theorem any_key_iff {α : Type} (d : List (String × α)) (k : String) :
    d.any (fun p => p.1 == k) = true ↔ k ∈ d.map Prod.fst := by
  simp [List.any_eq_true, List.mem_map]

theorem dictGet_eq_none_iff {α : Type} (d : List (String × α)) (k : String) :
    dictGet d k = none ↔ k ∉ d.map Prod.fst := by
  induction d with
  | nil => simp [dictGet_nil]
  | cons a t ih =>
    by_cases h : (a.1 == k) = true
    · have he : a.1 = k := by simpa using h
      simp [dictGet_cons, h, he]
    · have he : a.1 ≠ k := by simpa using h
      rw [dictGet_cons, if_neg h, ih]
      simp only [List.map_cons, List.mem_cons, not_or]
      constructor
      · intro hm
        exact ⟨fun hk => he hk.symm, hm⟩
      · intro hm
        exact hm.2

theorem dictGet_append {α : Type} (d e : List (String × α)) (k : String) :
    dictGet (d ++ e) k =
      match dictGet d k with
      | some v => some v
      | none => dictGet e k := by
  induction d with
  | nil => simp [dictGet_nil]
  | cons a t ih =>
    by_cases h : (a.1 == k) = true <;> simp [dictGet_cons, h, ih]

theorem mem_iff_dictGet {α : Type} (d : List (String × α))
    (hnd : (d.map Prod.fst).Nodup) (k : String) (v : α) :
    (k, v) ∈ d ↔ dictGet d k = some v := by
  induction d with
  | nil => simp [dictGet_nil]
  | cons a t ih =>
    obtain ⟨ka, va⟩ := a
    simp only [List.map_cons, List.nodup_cons] at hnd
    by_cases h : (ka == k) = true
    · have he : ka = k := by simpa using h
      subst he
      rw [dictGet_cons, if_pos (by simp)]
      constructor
      · intro hm
        rcases List.mem_cons.mp hm with he | hm
        · have hv : v = va := congrArg Prod.snd he
          rw [hv]
        · exact absurd (List.mem_map_of_mem Prod.fst hm) hnd.1
      · intro hv
        have hv2 : va = v := by simpa using hv
        rw [← hv2]
        exact List.mem_cons_self _ _
    · have he : ka ≠ k := by simpa using h
      rw [dictGet_cons, if_neg h, ← ih hnd.2]
      constructor
      · intro hm
        rcases List.mem_cons.mp hm with hee | hm
        · exact absurd (congrArg Prod.fst hee).symm he
        · exact hm
      · intro hm
        exact List.mem_cons_of_mem _ hm

/-! Helper lemmas about the status counting of the badge renderer. -/

theorem bumpCount_not_mem (c : List (String × Nat)) (k : String)
    (h : k ∉ c.map Prod.fst) : bumpCount c k = c ++ [(k, 1)] := by
  rw [bumpCount, if_neg]
  intro ha
  exact h ((any_key_iff c k).mp ha)

theorem bumpCount_keys (c : List (String × Nat)) (k : String) :
    (bumpCount c k).map Prod.fst =
      if k ∈ c.map Prod.fst then c.map Prod.fst else c.map Prod.fst ++ [k] := by
  by_cases h : k ∈ c.map Prod.fst
  · rw [if_pos h, bumpCount, if_pos ((any_key_iff c k).mpr h), List.map_map]
    apply List.map_congr_left
    intro p _
    by_cases hp : (p.1 == k) = true
    · have : p.1 = k := by simpa using hp
      simp [hp, Function.comp, this]
    · simp [hp, Function.comp]
  · rw [if_neg h, bumpCount_not_mem c k h]
    simp

theorem bumpCount_keys_nodup (c : List (String × Nat)) (k : String)
    (h : (c.map Prod.fst).Nodup) : ((bumpCount c k).map Prod.fst).Nodup := by
  rw [bumpCount_keys]
  by_cases hm : k ∈ c.map Prod.fst
  · simpa [hm] using h
  · simp only [hm, if_neg, not_false_iff]
    rw [List.nodup_append]
    exact ⟨h, List.nodup_singleton k, by simpa using hm⟩

theorem bumpCount_pos (c : List (String × Nat)) (k : String)
    (h : ∀ p ∈ c, 0 < p.2) : ∀ p ∈ bumpCount c k, 0 < p.2 := by
  intro p hp
  rw [bumpCount] at hp
  by_cases ha : c.any (fun q => q.1 == k) = true
  · rw [if_pos ha] at hp
    obtain ⟨q, hq, hpq⟩ := List.mem_map.mp hp
    by_cases hqk : (q.1 == k) = true
    · rw [if_pos hqk] at hpq
      rw [← hpq]
      exact Nat.succ_pos _
    · rw [if_neg hqk] at hpq
      rw [← hpq]
      exact h q hq
  · rw [if_neg ha] at hp
    rcases List.mem_append.mp hp with hm | hm
    · exact h p hm
    · have : p = (k, 1) := by simpa using hm
      rw [this]
      exact Nat.one_pos

theorem dictGet_bump_map (c : List (String × Nat)) (k s : String) :
    dictGet (c.map (fun p => if p.1 == k then (k, p.2 + 1) else p)) s =
      if s = k then (dictGet c k).map (fun v => v + 1) else dictGet c s := by
  induction c with
  | nil => by_cases h : s = k <;> simp [dictGet_nil, h]
  | cons a t ih =>
    simp only [List.map_cons]
    by_cases hak : (a.1 == k) = true
    · have he : a.1 = k := by simpa using hak
      by_cases hs : s = k
      · subst hs
        simp [dictGet_cons, hak, he]
      · have hk : k ≠ s := fun hh => hs hh.symm
        simp [dictGet_cons, hak, he, hs, hk]
        simpa [hs] using ih
    · have he : a.1 ≠ k := by simpa using hak
      by_cases hs : s = k
      · subst hs
        simp [dictGet_cons, hak, he]
        simpa using ih
      · by_cases has : (a.1 == s) = true
        · simp [dictGet_cons, hak, has, hs, ih]
        · simp [dictGet_cons, hak, has, hs]
          simpa [hs] using ih

theorem lookupCount_bumpCount (c : List (String × Nat)) (k s : String) :
    lookupCount (bumpCount c k) s = lookupCount c s + (if s = k then 1 else 0) := by
  by_cases hm : k ∈ c.map Prod.fst
  · rw [bumpCount, if_pos ((any_key_iff c k).mpr hm), lookupCount, lookupCount,
      dictGet_bump_map]
    by_cases hs : s = k
    · subst hs
      rcases ho : dictGet c s with _ | v
      · exact absurd ((dictGet_eq_none_iff c s).mp ho) (by simpa using hm)
      · simp [ho]
    · simp [hs]
  · rw [bumpCount_not_mem c k hm, lookupCount, lookupCount, dictGet_append]
    by_cases hs : s = k
    · subst hs
      rw [(dictGet_eq_none_iff c s).mpr hm]
      simp [dictGet_cons]
    · have hks : ¬k = s := fun hh => hs hh.symm
      rcases ho : dictGet c s with _ | v
      · simp [dictGet_cons, dictGet_nil, ho, hks, hs]
      · simp [ho, hs]

theorem foldl_statuses_flat (results : JobResults) (c : List (String × Nat)) :
    results.foldl (fun acc jr => jr.2.foldl (fun a r => bumpCount a r.status) acc) c =
      (results.flatMap (fun jr => jr.2)).foldl (fun a r => bumpCount a r.status) c := by
  induction results generalizing c with
  | nil => simp
  | cons jr t ih => simp [List.foldl_append, ih]

theorem statusFold_keys_nodup (l : List JobResult) :
    ∀ c : List (String × Nat), (c.map Prod.fst).Nodup →
      ((l.foldl (fun a r => bumpCount a r.status) c).map Prod.fst).Nodup := by
  induction l with
  | nil => intro c h; simpa using h
  | cons r t ih =>
    intro c h
    exact ih (bumpCount c r.status) (bumpCount_keys_nodup c r.status h)

theorem lookupCount_statusFold (l : List JobResult) :
    ∀ (c : List (String × Nat)) (s : String),
      lookupCount (l.foldl (fun a r => bumpCount a r.status) c) s =
        lookupCount c s + l.countP (fun r => r.status == s) := by
  induction l with
  | nil => intro c s; simp
  | cons r t ih =>
    intro c s
    rw [List.foldl_cons, ih, lookupCount_bumpCount, List.countP_cons]
    by_cases hr : r.status = s
    · simp [hr]
      omega
    · have hr2 : ¬s = r.status := fun hh => hr hh.symm
      simp [hr, hr2]

theorem statusFold_pos (l : List JobResult) :
    ∀ c : List (String × Nat), (∀ p ∈ c, 0 < p.2) →
      ∀ p ∈ l.foldl (fun a r => bumpCount a r.status) c, 0 < p.2 := by
  induction l with
  | nil => intro c h; simpa using h
  | cons r t ih =>
    intro c h
    exact ih (bumpCount c r.status) (bumpCount_pos c r.status h)

theorem countStatuses_keys_nodup (results : JobResults) :
    ((countStatuses results).map Prod.fst).Nodup := by
  rw [countStatuses, foldl_statuses_flat]
  exact statusFold_keys_nodup _ [] (by simp)

theorem lookupCount_countStatuses (results : JobResults) (s : String) :
    lookupCount (countStatuses results) s = numWithStatus results s := by
  rw [countStatuses, foldl_statuses_flat, lookupCount_statusFold, numWithStatus]
  simp [lookupCount, dictGet_nil]

theorem countStatuses_pos (results : JobResults) :
    ∀ p ∈ countStatuses results, 0 < p.2 := by
  rw [countStatuses, foldl_statuses_flat]
  exact statusFold_pos _ [] (by simp)

theorem mem_countStatuses_iff (results : JobResults) (s : String) (n : Nat) :
    (s, n) ∈ countStatuses results ↔ numWithStatus results s = n ∧ 0 < n := by
  constructor
  · intro hm
    have hd := (mem_iff_dictGet _ (countStatuses_keys_nodup results) s n).mp hm
    have hl : lookupCount (countStatuses results) s = n := by rw [lookupCount, hd]; rfl
    exact ⟨by rw [← lookupCount_countStatuses, hl], countStatuses_pos results (s, n) hm⟩
  · rintro ⟨hn, hp⟩
    have hl : lookupCount (countStatuses results) s = n := by
      rw [lookupCount_countStatuses, hn]
    rcases ho : dictGet (countStatuses results) s with _ | v
    · rw [lookupCount, ho] at hl
      simp at hl
      omega
    · rw [lookupCount, ho] at hl
      simp at hl
      subst hl
      exact (mem_iff_dictGet _ (countStatuses_keys_nodup results) s v).mpr ho

theorem mem_keys_countStatuses (results : JobResults) (s : String) :
    s ∈ (countStatuses results).map Prod.fst ↔ 0 < numWithStatus results s := by
  constructor
  · intro hm
    obtain ⟨p, hp, hps⟩ := List.mem_map.mp hm
    obtain ⟨s2, n⟩ := p
    have he : s2 = s := hps
    subst he
    obtain ⟨hn, hp2⟩ := (mem_countStatuses_iff results s2 n).mp hp
    rw [hn]
    exact hp2
  · intro hp
    have hm := (mem_countStatuses_iff results s (numWithStatus results s)).mpr ⟨rfl, hp⟩
    exact List.mem_map.mpr ⟨(s, numWithStatus results s), hm, rfl⟩

theorem badgeCounts_eq_of_some (store : ResultStore) (tname : String)
    (results : JobResults) (h : dictGet store tname = some results) :
    badgeCounts store tname = countStatuses results := by
  rw [badgeCounts, h]
  by_cases he : results.isEmpty
  · have hr : results = [] := List.isEmpty_iff.mp he
    subst hr
    rfl
  · simp [he]

theorem badgeCounts_eq_of_none (store : ResultStore) (tname : String)
    (h : dictGet store tname = none) : badgeCounts store tname = [] := by
  rw [badgeCounts, h]

/-! The claims. -/

/-- Claim C1: for every test name requested in a badges token (prefixed as
prefix.name when a prefix is set, bare otherwise), the badge renderer
emits exactly one badge element per distinct status present in that
test's store entry, each labeled with the number of individual result
records having that status summed over all jobs and recipes; if the
store has no entry for the name, the count map is empty and zero badges
are emitted. -/
theorem civet_badges_count_per_status (store : ResultStore)
    (numbers : List (String × String)) (hasR : Bool) (pfx : Option String)
    (test : String) :
    ((badgesForTest store numbers hasR pfx test).badges =
        (badgeCounts store (tnameOf pfx test)).map mkBadge) ∧
    (dictGet store (tnameOf pfx test) = none →
        badgeCounts store (tnameOf pfx test) = [] ∧
        (badgesForTest store numbers hasR pfx test).badges = []) ∧
    (∀ results, dictGet store (tnameOf pfx test) = some results →
        ((badgeCounts store (tnameOf pfx test)).map Prod.fst).Nodup ∧
        (∀ s n, (s, n) ∈ badgeCounts store (tnameOf pfx test) ↔
            (numWithStatus results s = n ∧ 0 < n))) := by
  refine ⟨rfl, ?_, ?_⟩
  · intro h
    have hc := badgeCounts_eq_of_none store (tnameOf pfx test) h
    exact ⟨hc, by simp [badgesForTest, hc]⟩
  · intro results h
    have hc := badgeCounts_eq_of_some store (tnameOf pfx test) results h
    rw [hc]
    exact ⟨countStatuses_keys_nodup results, mem_countStatuses_iff results⟩

/-- Witness for C1 at the store of the specification example: one test
with one job holding one OK and one FAIL record yields exactly the
bindings OK to 1 and FAIL to 1. -/
theorem civet_badges_count_per_status_witness :
    ("OK", 1) ∈ badgeCounts
        [("suite.t1", [("job1", [⟨"OK", "r1", "u"⟩, ⟨"FAIL", "r2", "u"⟩])])]
        "suite.t1" ∧
    ("FAIL", 1) ∈ badgeCounts
        [("suite.t1", [("job1", [⟨"OK", "r1", "u"⟩, ⟨"FAIL", "r2", "u"⟩])])]
        "suite.t1" ∧
    (badgesForTest
        [("suite.t1", [("job1", [⟨"OK", "r1", "u"⟩, ⟨"FAIL", "r2", "u"⟩])])]
        [] false (some "suite") "t1").badges.length = 2 := by
  have h := civet_badges_count_per_status
    [("suite.t1", [("job1", [⟨"OK", "r1", "u"⟩, ⟨"FAIL", "r2", "u"⟩])])]
    [] false (some "suite") "t1"
  have h2 := (h.2.2 [("job1", [⟨"OK", "r1", "u"⟩, ⟨"FAIL", "r2", "u"⟩])] rfl).2
  refine ⟨(h2 "OK" 1).mpr ⟨by decide, Nat.one_pos⟩,
          (h2 "FAIL" 1).mpr ⟨by decide, Nat.one_pos⟩, ?_⟩
  rw [h.1]
  decide

/-- Claim C2: after rendering badges for a test, the parent container is
marked failed if and only if the status OK is absent from the computed
counts: it is marked when the store has no entry (zero badges) and when
all results are non-OK, and it is not marked when at least one OK result
is present, even alongside FAIL results. -/
theorem civet_badges_fail_flag (store : ResultStore)
    (numbers : List (String × String)) (hasR : Bool) (pfx : Option String)
    (test : String) :
    ((badgesForTest store numbers hasR pfx test).failFlag = true ↔
        "OK" ∉ (badgeCounts store (tnameOf pfx test)).map Prod.fst) ∧
    (dictGet store (tnameOf pfx test) = none →
        (badgesForTest store numbers hasR pfx test).failFlag = true) ∧
    (∀ results, dictGet store (tnameOf pfx test) = some results →
        ((badgesForTest store numbers hasR pfx test).failFlag = true ↔
            numWithStatus results "OK" = 0)) := by
  have hflag : (badgesForTest store numbers hasR pfx test).failFlag =
      !((badgeCounts store (tnameOf pfx test)).any (fun p => p.1 == "OK")) := rfl
  have hiff : (badgesForTest store numbers hasR pfx test).failFlag = true ↔
      "OK" ∉ (badgeCounts store (tnameOf pfx test)).map Prod.fst := by
    rw [hflag]
    cases hany : (badgeCounts store (tnameOf pfx test)).any (fun p => p.1 == "OK") with
    | false =>
      simp only [Bool.not_false]
      constructor
      · intro _ hm
        have hh := (any_key_iff _ _).mpr hm
        rw [hany] at hh
        exact absurd hh (by simp)
      · intro _
        trivial
    | true =>
      simp only [Bool.not_true]
      constructor
      · intro hft
        exact absurd hft (by simp)
      · intro hm
        exact ((hm ((any_key_iff _ _).mp hany)).elim)
  refine ⟨hiff, ?_, ?_⟩
  · intro h
    rw [hiff, badgeCounts_eq_of_none store _ h]
    simp
  · intro results h
    rw [hiff, badgeCounts_eq_of_some store _ results h, mem_keys_countStatuses]
    omega

/-- Witness for C2: with one OK and one FAIL record the flag stays off;
with an empty store entry lookup the flag turns on. -/
theorem civet_badges_fail_flag_witness :
    (badgesForTest [("t1", [("job1", [⟨"OK", "r1", "u"⟩, ⟨"FAIL", "r2", "u"⟩])])]
        [] false none "t1").failFlag = false ∧
    (badgesForTest [] [] false none "t1").failFlag = true := by
  have h1 := civet_badges_fail_flag
    [("t1", [("job1", [⟨"OK", "r1", "u"⟩, ⟨"FAIL", "r2", "u"⟩])])] [] false none "t1"
  have h2 := civet_badges_fail_flag [] [] false none "t1"
  constructor
  · have h3 := h1.2.2 [("job1", [⟨"OK", "r1", "u"⟩, ⟨"FAIL", "r2", "u"⟩])] rfl
    cases hf : (badgesForTest [("t1", [("job1", [⟨"OK", "r1", "u"⟩, ⟨"FAIL", "r2", "u"⟩])])]
        [] false none "t1").failFlag
    · rfl
    · exact absurd (h3.mp hf) (by decide)
  · exact h2.2.1 rfl

/-- Claim C3: for every test name requested in a report token whose
results exist in the store, the report renderer builds a table with
header Status, Job, Recipe, followed by exactly one row per individual
result record of each job, preserving the job and recipe association;
the row's status cell carries the lower-cased status in its styling
attribute while displaying the status text unchanged, and the job cell
links to job_url/job/job_id. -/
theorem civet_report_table_rows (store : ResultStore) (pfx : Option String)
    (key : String) (results : JobResults)
    (h : dictGet store (tnameOf pfx key) = some results) :
    reportForTest store pfx key =
      Except.ok { header := ["Status", "Job", "Recipe"], rows := reportRows results } ∧
    (reportRows results).length = (results.map (fun jr => jr.2.length)).sum ∧
    (∀ row ∈ reportRows results, ∃ jr ∈ results, ∃ item ∈ jr.2, row = mkRow jr.1 item) ∧
    (∀ jr ∈ results, ∀ item ∈ jr.2, mkRow jr.1 item ∈ reportRows results) ∧
    (∀ job item, (mkRow job item).statusText = item.status ∧
        (mkRow job item).statusAttr = item.status.toLower ∧
        (mkRow job item).jobText = job ∧
        (mkRow job item).jobHref = item.url ++ "/job/" ++ job ∧
        (mkRow job item).recipe = item.recipe) := by
  refine ⟨by rw [reportForTest, h], ?_, ?_, ?_,
    fun job item => ⟨rfl, rfl, rfl, rfl, rfl⟩⟩
  · rw [reportRows]
    simp [List.length_flatMap, Function.comp_def]
  · intro row hrow
    obtain ⟨jr, hjr, hr⟩ := List.mem_flatMap.mp hrow
    obtain ⟨item, hitem, he⟩ := List.mem_map.mp hr
    exact ⟨jr, hjr, item, hitem, he.symm⟩
  · intro jr hjr item hitem
    exact List.mem_flatMap.mpr ⟨jr, hjr, List.mem_map.mpr ⟨item, hitem, rfl⟩⟩

/-- Witness for C3 at a two-job result set: three records yield three
rows in order, statuses lower-cased in the styling attribute only. -/
theorem civet_report_table_rows_witness :
    reportForTest
      [("t1", [("job1", [⟨"OK", "r1", "u1"⟩]),
               ("job2", [⟨"FAIL", "r2", "u2"⟩, ⟨"DIFF", "r3", "u2"⟩])])]
      none "t1" =
    Except.ok { header := ["Status", "Job", "Recipe"]
              , rows := [⟨"OK", "OK".toLower, "job1", "u1/job/job1", "r1"⟩,
                         ⟨"FAIL", "FAIL".toLower, "job2", "u2/job/job2", "r2"⟩,
                         ⟨"DIFF", "DIFF".toLower, "job2", "u2/job/job2", "r3"⟩] } := by
  have h := civet_report_table_rows
    [("t1", [("job1", [⟨"OK", "r1", "u1"⟩]),
             ("job2", [⟨"FAIL", "r2", "u2"⟩, ⟨"DIFF", "r3", "u2"⟩])])]
    none "t1"
    [("job1", [⟨"OK", "r1", "u1"⟩]), ("job2", [⟨"FAIL", "r2", "u2"⟩, ⟨"DIFF", "r3", "u2"⟩])]
    rfl
  rw [h.1]
  rfl

/-- Claim C10 (implicit): a test name requested in a report token that
has no store entry makes the Materialize report renderer raise (the code
iterates the None returned by the store lookup) rather than render an
empty table or placeholder; the badge renderer, in contrast, guards the
lookup and renders zero badges with the fail mark for the same name. -/
theorem civet_report_missing_entry_raises (store : ResultStore)
    (pfx : Option String) (key : String)
    (h : dictGet store (tnameOf pfx key) = none) :
    reportForTest store pfx key =
      Except.error "AttributeError: NoneType object has no attribute items" ∧
    (∀ rest, RenderCivetTestReport.createMaterialize store
        { pfx := pfx, tests := key :: rest } =
      Except.error "AttributeError: NoneType object has no attribute items") ∧
    (badgesForTest store [] false pfx key).badges = [] ∧
    (badgesForTest store [] false pfx key).failFlag = true := by
  have h1 : reportForTest store pfx key =
      Except.error "AttributeError: NoneType object has no attribute items" := by
    rw [reportForTest, h]
  refine ⟨h1, ?_, ?_, ?_⟩
  · intro rest
    rw [RenderCivetTestReport.createMaterialize]
    simp only [reportTables, h1]
    rfl
  · simp [badgesForTest, badgeCounts_eq_of_none store _ h]
  · have hf : (badgesForTest store [] false pfx key).failFlag =
        !((badgeCounts store (tnameOf pfx key)).any (fun p => p.1 == "OK")) := rfl
    rw [hf, badgeCounts_eq_of_none store _ h]
    rfl

/-- Witness for C10 at the empty store. -/
theorem civet_report_missing_entry_raises_witness :
    reportForTest [] none "t" =
      Except.error "AttributeError: NoneType object has no attribute items" ∧
    RenderCivetTestReport.createMaterialize [] { pfx := none, tests := ["t"] } =
      Except.error "AttributeError: NoneType object has no attribute items" := by
  have h := civet_report_missing_entry_raises [] none "t" rfl
  exact ⟨h.1, h.2.1 []⟩

/-- Claim C9: the plain-HTML and LaTeX rendering methods of both the
badge renderer and the report renderer are no-ops, leaving the output
markup tree unchanged for every parent, token and page; their python
bodies are pass. -/
theorem civet_renderers_noop {α : Type} (parent : α) (tokenB : CivetTestBadges)
    (tokenR : CivetTestReport) (page : String) :
    RenderCivetTestBadges.createHTML parent tokenB page = parent ∧
    RenderCivetTestBadges.createLatex parent tokenB page = parent ∧
    RenderCivetTestReport.createHTML parent tokenR page = parent ∧
    RenderCivetTestReport.createLatex parent tokenR page = parent :=
  ⟨rfl, rfl, rfl, rfl⟩

/-- Claim C8, counterexample: with no remote configured and no explicit
url or repo setting the results command does not degrade to a non-link
placeholder element; it emits a link element whose url interpolates the
python string None. -/
theorem civet_results_no_remote_counterexample :
    resultsCreateToken [] { remote := none, url := none, repo := none } "abc123" false =
      Except.ok (Element.link "None/sha_events/None/abc123" (some "abc123")) ∧
    Element.isLink (Element.link "None/sha_events/None/abc123" (some "abc123")) = true :=
  ⟨rfl, rfl⟩

/-- Claim C8, amended: with no remote configured and no explicit url or
repo setting, url and repo resolve to absent (None), and the results
command does not fail: it emits a link element (not a placeholder) whose
url embeds the string None for both site and repo, hence no usable link
target. -/
theorem civet_results_no_remote_link (sha : String) (inline : Bool) :
    getCivetInfo [] { remote := none, url := none, repo := none } =
      Except.ok (none, none) ∧
    resultsCreateToken [] { remote := none, url := none, repo := none } sha inline =
      Except.ok (Element.link ("None/sha_events/None/" ++ sha)
        (if inline then none else some sha)) ∧
    (∀ e, resultsCreateToken [] { remote := none, url := none, repo := none } sha inline =
        Except.ok e → Element.isLink e = true) := by
  have hh : resultsCreateToken [] { remote := none, url := none, repo := none } sha inline =
      Except.ok (Element.link ("None/sha_events/None/" ++ sha)
        (if inline then none else some sha)) := by
    cases inline <;> rfl
  refine ⟨rfl, hh, ?_⟩
  intro e he
  have h3 := Except.ok.inj (hh.symm.trans he)
  rw [← h3]
  cases inline <;> rfl

/-! Injectivity of the decimal page names result_0, result_1, ... -/

theorem digitChar_val (m : Nat) (h : m < 10) : charVal (Nat.digitChar m) = m := by
  interval_cases m <;> rfl

theorem toDigitsCore_append_chars (fuel n : Nat) :
    ∀ ds : List Char, Nat.toDigitsCore 10 fuel n ds = Nat.toDigitsCore 10 fuel n [] ++ ds := by
  induction fuel generalizing n with
  | zero => intro ds; simp [Nat.toDigitsCore]
  | succ fuel ih =>
    intro ds
    simp only [Nat.toDigitsCore]
    by_cases h : n / 10 = 0
    · simp [h]
    · simp only [h, if_neg h]
      rw [ih (n / 10) [Nat.digitChar (n % 10)], ih (n / 10) (Nat.digitChar (n % 10) :: ds)]
      simp

theorem toDigitsCore_eval (fuel : Nat) :
    ∀ n : Nat, n < fuel → ofDigitChars (Nat.toDigitsCore 10 fuel n []) = n := by
  induction fuel with
  | zero => intro n h; omega
  | succ fuel ih =>
    intro n h
    simp only [Nat.toDigitsCore]
    by_cases h0 : n / 10 = 0
    · have hn : n < 10 := by
        rw [Nat.div_eq_zero_iff] at h0
        · omega
        · norm_num
      simp only [h0, if_pos]
      rw [ofDigitChars]
      simp only [List.foldl_cons, List.foldl_nil]
      rw [digitChar_val (n % 10) (Nat.mod_lt n (by norm_num))]
      omega
    · have hpos : 0 < n := by
        by_contra hn
        have : n = 0 := by omega
        subst this
        simp at h0
      have hlt : n / 10 < fuel := by
        have h1 : n / 10 < n := Nat.div_lt_self hpos (by norm_num)
        omega
      rw [if_neg h0]
      rw [toDigitsCore_append_chars fuel (n / 10) [Nat.digitChar (n % 10)]]
      rw [ofDigitChars, List.foldl_append]
      have hrec := ih (n / 10) hlt
      rw [ofDigitChars] at hrec
      rw [hrec]
      simp only [List.foldl_cons, List.foldl_nil]
      rw [digitChar_val (n % 10) (Nat.mod_lt n (by norm_num))]
      omega

theorem natRepr_injective : Function.Injective Nat.repr := by
  intro a b h
  have ha : ofDigitChars (Nat.toDigits 10 a) = a := toDigitsCore_eval (a + 1) a (by omega)
  have hb : ofDigitChars (Nat.toDigits 10 b) = b := toDigitsCore_eval (b + 1) b (by omega)
  have hd : Nat.toDigits 10 a = Nat.toDigits 10 b := by
    have h2 : (Nat.repr a).data = (Nat.repr b).data := by rw [h]
    simpa [Nat.repr, List.asString] using h2
  rw [← ha, ← hb, hd]

theorem string_append_left_cancel (s a b : String) (h : s ++ a = s ++ b) : a = b := by
  have hd : s.data ++ a.data = s.data ++ b.data := by
    have h2 := congrArg String.data h
    simpa [String.data_append] using h2
  have hab : a.data = b.data := List.append_cancel_left hd
  cases a; cases b; simp_all

theorem string_append_right_cancel (s a b : String) (h : a ++ s = b ++ s) : a = b := by
  have hd : a.data ++ s.data = b.data ++ s.data := by
    have h2 := congrArg String.data h
    simpa [String.data_append] using h2
  have hab : a.data = b.data := List.append_cancel_right hd
  cases a; cases b; simp_all

theorem resultName_injective : Function.Injective resultName := by
  intro a b h
  rw [resultName, resultName] at h
  exact natRepr_injective (string_append_left_cancel _ _ _ h)

/-! Helper lemmas about dictInsert, dictUpdate and the init fold. -/

theorem dictInsert_not_mem {α : Type} (d : List (String × α)) (k : String) (v : α)
    (h : k ∉ d.map Prod.fst) : dictInsert d k v = d ++ [(k, v)] := by
  rw [dictInsert, if_neg]
  intro ha
  exact h ((any_key_iff d k).mp ha)

theorem dictGet_upd_map {α : Type} (d : List (String × α)) (k : String) (v : α)
    (s : String) :
    dictGet (d.map (fun p => if p.1 == k then (k, v) else p)) s =
      if s = k then (dictGet d k).map (fun _ => v) else dictGet d s := by
  induction d with
  | nil => by_cases h : s = k <;> simp [dictGet_nil, h]
  | cons a t ih =>
    simp only [List.map_cons]
    by_cases hak : (a.1 == k) = true
    · have he : a.1 = k := by simpa using hak
      by_cases hs : s = k
      · subst hs
        simp [dictGet_cons, hak, he]
      · have hk : k ≠ s := fun hh => hs hh.symm
        simp [dictGet_cons, hak, he, hs, hk]
        simpa [hs] using ih
    · have he : a.1 ≠ k := by simpa using hak
      by_cases hs : s = k
      · subst hs
        simp [dictGet_cons, hak, he]
        simpa using ih
      · by_cases has : (a.1 == s) = true
        · simp [dictGet_cons, hak, has, hs, ih]
        · simp [dictGet_cons, hak, has, hs]
          simpa [hs] using ih

theorem dictGet_dictInsert {α : Type} (d : List (String × α)) (k : String) (v : α)
    (s : String) :
    dictGet (dictInsert d k v) s = if s = k then some v else dictGet d s := by
  by_cases hm : k ∈ d.map Prod.fst
  · rw [dictInsert, if_pos ((any_key_iff d k).mpr hm), dictGet_upd_map]
    by_cases hs : s = k
    · subst hs
      obtain ⟨w, hw⟩ : ∃ w, dictGet d s = some w := by
        rcases ho : dictGet d s with _ | w
        · exact absurd ((dictGet_eq_none_iff d s).mp ho) (by simpa using hm)
        · exact ⟨w, rfl⟩
      simp [hw]
    · simp [hs]
  · rw [dictInsert_not_mem d k v hm, dictGet_append]
    by_cases hs : s = k
    · subst hs
      rw [(dictGet_eq_none_iff d s).mpr hm]
      simp [dictGet_cons]
    · have hks : ¬k = s := fun hh => hs hh.symm
      rcases ho : dictGet d s with _ | w
      · simp [ho, dictGet_cons, dictGet_nil, hks, hs]
      · simp [ho, hs]

theorem dictGet_dictUpdate_not_mem {α : Type} (e : List (String × α)) :
    ∀ (d : List (String × α)) (k : String), k ∉ e.map Prod.fst →
      dictGet (dictUpdate d e) k = dictGet d k := by
  induction e with
  | nil => intro d k _; rfl
  | cons a t ih =>
    intro d k h
    simp only [List.map_cons, List.mem_cons, not_or] at h
    rw [dictUpdate, List.foldl_cons]
    have h2 := ih (dictInsert d a.1 a.2) k h.2
    rw [dictUpdate] at h2
    rw [h2, dictGet_dictInsert, if_neg h.1]

theorem dictGet_dictUpdate {α : Type} (e : List (String × α)) :
    ∀ (d : List (String × α)) (k : String), (e.map Prod.fst).Nodup →
      dictGet (dictUpdate d e) k =
        match dictGet e k with
        | some v => some v
        | none => dictGet d k := by
  induction e with
  | nil => intro d k _; simp [dictGet_nil, dictUpdate]
  | cons a t ih =>
    intro d k hnd
    simp only [List.map_cons, List.nodup_cons] at hnd
    rw [dictUpdate, List.foldl_cons]
    have hstep : t.foldl (fun acc p => dictInsert acc p.1 p.2) (dictInsert d a.1 a.2) =
        dictUpdate (dictInsert d a.1 a.2) t := rfl
    rw [hstep]
    by_cases hak : (a.1 == k) = true
    · have he : a.1 = k := by simpa using hak
      subst he
      rw [dictGet_dictUpdate_not_mem t (dictInsert d a.1 a.2) a.1 hnd.1]
      rw [dictGet_dictInsert, if_pos rfl, dictGet_cons, if_pos (by simp)]
    · have he : a.1 ≠ k := by simpa using hak
      rw [ih (dictInsert d a.1 a.2) k hnd.2, dictGet_cons, if_neg hak]
      rcases ho : dictGet t k with _ | w
      · have hka : k ≠ a.1 := fun hh => he hh.symm
        simp [ho, dictGet_dictInsert, hka]
      · simp [ho]

theorem initFold_pages (root : String) (db : ResultStore) :
    ∀ (ps : List PageSpec) (ns : List (String × String)) (c : Nat),
      (db.foldl (initStep root) (ps, ns, c)).1 = ps ++ resultPagesFrom root c db := by
  induction db with
  | nil => intro ps ns c; simp [resultPagesFrom]
  | cons kv t ih =>
    intro ps ns c
    rw [List.foldl_cons]
    have hstep : initStep root (ps, ns, c) kv =
        (ps ++ [mkResultPage root c kv.1], dictInsert ns kv.1 (resultName c), c + 1) := rfl
    rw [hstep, ih]
    simp [resultPagesFrom]

theorem initFold_numbers (root : String) (db : ResultStore) :
    ∀ (ps : List PageSpec) (ns : List (String × String)) (c : Nat),
      (∀ kv ∈ db, kv.1 ∉ ns.map Prod.fst) → (db.map Prod.fst).Nodup →
      (db.foldl (initStep root) (ps, ns, c)).2.1 = ns ++ numbersFrom c db := by
  induction db with
  | nil => intro ps ns c _ _; simp [numbersFrom]
  | cons kv t ih =>
    intro ps ns c hfresh hnd
    simp only [List.map_cons, List.nodup_cons] at hnd
    rw [List.foldl_cons]
    have hstep : initStep root (ps, ns, c) kv =
        (ps ++ [mkResultPage root c kv.1], dictInsert ns kv.1 (resultName c), c + 1) := rfl
    rw [hstep, dictInsert_not_mem ns kv.1 (resultName c) (hfresh kv (List.mem_cons_self kv t))]
    have hfresh2 : ∀ kv2 ∈ t, kv2.1 ∉ (ns ++ [(kv.1, resultName c)]).map Prod.fst := by
      intro kv2 hkv2
      simp only [List.map_append, List.mem_append, List.map_cons, List.map_nil,
        List.mem_singleton, not_or]
      refine ⟨hfresh kv2 (List.mem_cons_of_mem kv hkv2), ?_⟩
      intro he
      exact hnd.1 (he ▸ List.mem_map_of_mem Prod.fst hkv2)
    rw [ih (ps ++ [mkResultPage root c kv.1]) (ns ++ [(kv.1, resultName c)]) (c + 1)
      hfresh2 hnd.2]
    simp [numbersFrom]

theorem resultPagesFrom_length (root : String) (db : ResultStore) :
    ∀ c : Nat, (resultPagesFrom root c db).length = db.length := by
  induction db with
  | nil => intro c; rfl
  | cons kv t ih => intro c; simp [resultPagesFrom, ih]

theorem resultPagesFrom_get (root : String) (db : ResultStore) :
    ∀ (c i : Nat), (resultPagesFrom root c db)[i]? =
      (db[i]?).map (fun kv => mkResultPage root (c + i) kv.1) := by
  induction db with
  | nil => intro c i; simp [resultPagesFrom]
  | cons kv t ih =>
    intro c i
    cases i with
    | zero => simp [resultPagesFrom]
    | succ j =>
      simp only [resultPagesFrom, List.getElem?_cons_succ, ih (c + 1) j]
      have hc : c + 1 + j = c + (j + 1) := by omega
      rw [hc]

theorem resultPagesFrom_fullnames (root : String) (db : ResultStore) :
    ∀ c : Nat, (resultPagesFrom root c db).map PageSpec.fullname =
      (List.range' c db.length).map (fun i => root ++ "/" ++ resultName i ++ ".md") := by
  induction db with
  | nil => intro c; rfl
  | cons kv t ih =>
    intro c
    rw [resultPagesFrom, List.map_cons, List.length_cons, List.range'_succ, List.map_cons,
      ih (c + 1)]
    rfl

theorem resultFullname_injective (root : String) :
    Function.Injective (fun i => root ++ "/" ++ resultName i ++ ".md") := by
  intro a b h
  simp only at h
  have h2 : root ++ "/" ++ resultName a = root ++ "/" ++ resultName b :=
    string_append_right_cancel ".md" _ _ h
  exact resultName_injective (string_append_left_cancel (root ++ "/") _ _ h2)

theorem numbersFrom_map_fst (db : ResultStore) :
    ∀ c : Nat, (numbersFrom c db).map Prod.fst = db.map Prod.fst := by
  induction db with
  | nil => intro c; rfl
  | cons kv t ih => intro c; simp [numbersFrom, ih]

theorem numbersFrom_map_snd (db : ResultStore) :
    ∀ c : Nat, (numbersFrom c db).map Prod.snd = (List.range' c db.length).map resultName := by
  induction db with
  | nil => intro c; rfl
  | cons kv t ih =>
    intro c
    rw [numbersFrom, List.map_cons, List.length_cons, List.range'_succ, List.map_cons,
      ih (c + 1)]

theorem mem_keys_of_dictGet_some {α : Type} (d : List (String × α)) (k : String)
    (v : α) (h : dictGet d k = some v) : k ∈ d.map Prod.fst := by
  by_contra hm
  rw [(dictGet_eq_none_iff d k).mpr hm] at h
  exact Option.noConfusion h

theorem civetInitReports_numbers_eq (db : ResultStore) (genOpt : Bool) (root : String)
    (dirExists : Bool) (hnd : (db.map Prod.fst).Nodup) :
    (civetInitReports db genOpt root dirExists).numbers = numbersFrom 0 db ∨
    (civetInitReports db genOpt root dirExists).numbers = [] := by
  rw [civetInitReports]
  by_cases hg : (if db.isEmpty && genOpt then false else genOpt) = true
  · rw [if_pos hg]
    left
    have h := initFold_numbers root db
      (((if dirExists then [] else [⟨root, false, none⟩]) : List PageSpec) ++ [mkIndexPage root])
      [] 0 (by intro kv _; simp) hnd
    simpa using h
  · rw [if_neg hg]
    exact Or.inr rfl

/-- Claim C4: when report generation is enabled and the store holds N
distinct keys, initialization creates an index page at
test_reports_location/index.md plus exactly N result pages, one per key
in store iteration order, with sequential unique base names result_0,
result_1, ..., each result page tagged with its key (N+1 pages total,
after the report-root directory page when it is missing). -/
theorem civet_init_creates_pages (db : ResultStore) (root : String)
    (dirExists : Bool) (hne : db ≠ []) :
    (civetInitReports db true root dirExists).genReports = true ∧
    (civetInitReports db true root dirExists).hasReports = true ∧
    (civetInitReports db true root dirExists).pages =
      ((if dirExists then [] else [⟨root, false, none⟩]) : List PageSpec) ++
        mkIndexPage root :: resultPagesFrom root 0 db ∧
    (mkIndexPage root :: resultPagesFrom root 0 db).length = db.length + 1 ∧
    (∀ i : Nat, (resultPagesFrom root 0 db)[i]? =
        (db[i]?).map (fun kv => mkResultPage root i kv.1)) ∧
    ((resultPagesFrom root 0 db).map PageSpec.fullname).Nodup := by
  have hie : db.isEmpty = false := by
    cases db with
    | nil => exact absurd rfl hne
    | cons kv t => rfl
  have hg : (if db.isEmpty && true then false else true) = true := by
    rw [hie]
    rfl
  refine ⟨?_, ?_, ?_, ?_, ?_, ?_⟩
  · rw [civetInitReports, hg, if_pos rfl]
  · rw [civetInitReports, hg, if_pos rfl]
  · rw [civetInitReports, hg, if_pos rfl]
    have h := initFold_pages root db
      (((if dirExists then [] else [⟨root, false, none⟩]) : List PageSpec) ++ [mkIndexPage root])
      [] 0
    simp only [h]
    simp
  · rw [List.length_cons, resultPagesFrom_length]
  · intro i
    have h := resultPagesFrom_get root db 0 i
    simpa using h
  · rw [resultPagesFrom_fullnames root db 0]
    exact (List.nodup_range' _ _ _ (by norm_num)).map (resultFullname_injective root)

/-- Witness for C4: a two-key store yields the directory page, the index
page and two sequentially named result pages, each tagged with its key. -/
theorem civet_init_creates_pages_witness :
    (civetInitReports [("a", []), ("b", [])] true "civet" false).pages =
      [⟨"civet", false, none⟩, mkIndexPage "civet",
       mkResultPage "civet" 0 "a", mkResultPage "civet" 1 "b"] := by
  have h := civet_init_creates_pages [("a", []), ("b", [])] "civet" false
    (List.cons_ne_nil _ _)
  rw [h.2.2.1]
  rfl

/-- Claim C5: after initialization, every key registered in the page
generator's name table (every key for which testBaseFileName returns a
name) is a key of the original result store, each such key has exactly
one name entry, and the assigned names are pairwise distinct (no
orphaned names). -/
theorem civet_numbers_roundtrip (db : ResultStore) (genOpt : Bool) (root : String)
    (dirExists : Bool) (hnd : (db.map Prod.fst).Nodup) :
    (∀ k n, testBaseFileName (civetInitReports db genOpt root dirExists) k = some n →
        k ∈ db.map Prod.fst) ∧
    ((civetInitReports db genOpt root dirExists).numbers.map Prod.fst).Nodup ∧
    ((civetInitReports db genOpt root dirExists).numbers.map Prod.snd).Nodup := by
  rcases civetInitReports_numbers_eq db genOpt root dirExists hnd with he | he
  · refine ⟨?_, ?_, ?_⟩
    · intro k n h
      rw [testBaseFileName, he] at h
      have hm := mem_keys_of_dictGet_some _ k n h
      rw [numbersFrom_map_fst db 0] at hm
      exact hm
    · rw [he, numbersFrom_map_fst db 0]
      exact hnd
    · rw [he, numbersFrom_map_snd db 0]
      exact (List.nodup_range' _ _ _ (by norm_num)).map resultName_injective
  · refine ⟨?_, ?_, ?_⟩
    · intro k n h
      rw [testBaseFileName, he] at h
      exact absurd h (by simp [dictGet_nil])
    · rw [he]
      exact List.nodup_nil
    · rw [he]
      exact List.nodup_nil

/-- Witness for C5 at a two-key store. -/
theorem civet_numbers_roundtrip_witness :
    ((civetInitReports [("a", []), ("b", [])] true "civet" false).numbers.map
        Prod.fst).Nodup ∧
    ((civetInitReports [("a", []), ("b", [])] true "civet" false).numbers.map
        Prod.snd).Nodup ∧
    "a" ∈ ([("a", []), ("b", [])] : ResultStore).map Prod.fst := by
  have h := civet_numbers_roundtrip [("a", []), ("b", [])] true "civet" false (by simp)
  refine ⟨h.2.1, h.2.2, ?_⟩
  exact h.1 "a" "result_0" (by rfl)

theorem fetchFold_spec (cfg : Config) (env : FetchEnv) (l : List (String × Category)) :
    ∀ (d : ResultStore) (cs : List FetchCall) (hs : List String),
      l.foldl (fetchStep cfg env) (d, cs, hs) =
        ((l.map (fun nc => env.getCivetResults (callOf cfg env nc))).foldl
            (fun acc e => dictUpdate acc e) d,
         cs ++ l.map (callOf cfg env),
         hs ++ (l.filter (fun nc => downloadOf cfg nc.2)).map Prod.fst) := by
  induction l with
  | nil => intro d cs hs; simp
  | cons nc t ih =>
    intro d cs hs
    rw [List.foldl_cons]
    have hstep : fetchStep cfg env (d, cs, hs) nc =
        (dictUpdate d (env.getCivetResults (callOf cfg env nc)),
         cs ++ [callOf cfg env nc],
         if downloadOf cfg nc.2 then hs ++ [nc.1] else hs) := rfl
    rw [hstep, ih]
    refine Prod.ext rfl (Prod.ext ?_ ?_)
    · simp
    · by_cases hd : downloadOf cfg nc.2
      · simp [List.filter_cons, hd]
      · simp [List.filter_cons, hd]

/-- Claim C6: if the result store is empty after the fetch phase
(including when the branch or author check fails) and report generation
is requested, report generation is force-disabled: the
generate_test_reports option ends up False, no report pages are created,
and hasTestReports() returns False.  The embedding is total here: this
situation raises nothing. -/
theorem civet_empty_db_disables_reports (cfg : Config) (env : FetchEnv)
    (dirExists : Bool) (hdb : (fetchPhase cfg env).1 = [])
    (hreq : cfg.generate_test_reports = true) :
    (civetInit cfg env dirExists).genReports = false ∧
    (civetInit cfg env dirExists).pages = [] ∧
    hasTestReports (civetInit cfg env dirExists) = false := by
  have he : civetInit cfg env dirExists =
      civetInitReports [] true cfg.test_reports_location dirExists := by
    rw [civetInit, hdb, hreq]
  rw [he]
  exact ⟨rfl, rfl, rfl⟩

/-- Witness for C6: a failing branch check leaves the store empty and
turns report generation off without an error. -/
theorem civet_empty_db_disables_reports_witness :
    (civetInit
      { remotes := [], branch := "master", author := "moosetest",
        download_test_results := true, generate_test_reports := true,
        test_reports_location := "civet", test_results_cache := "cache" }
      { gitIsBranch := fun _ => false, gitIsAuthor := fun _ => true,
        rootDir := "root", gitCivetHashes := fun _ => [],
        getCivetResults := fun _ => [] }
      false).genReports = false ∧
    hasTestReports (civetInit
      { remotes := [], branch := "master", author := "moosetest",
        download_test_results := true, generate_test_reports := true,
        test_reports_location := "civet", test_results_cache := "cache" }
      { gitIsBranch := fun _ => false, gitIsAuthor := fun _ => true,
        rootDir := "root", gitCivetHashes := fun _ => [],
        getCivetResults := fun _ => [] }
      false) = false := by
  have h := civet_empty_db_disables_reports
    { remotes := [], branch := "master", author := "moosetest",
      download_test_results := true, generate_test_reports := true,
      test_reports_location := "civet", test_results_cache := "cache" }
    { gitIsBranch := fun _ => false, gitIsAuthor := fun _ => true,
      rootDir := "root", gitCivetHashes := fun _ => [],
      getCivetResults := fun _ => [] }
    false rfl rfl
  exact ⟨h.1, h.2.2⟩

/-- Claim C7: for every configured remote category with
download_test_results explicitly False (given the branch and author
checks pass), initialization performs no commit-hash lookup for that
category and passes hashes None, yet still requests cached results from
the category's cache restricted to the statuses OK, FAIL, DIFF, TIMEOUT
and merges them into the store, later categories overwriting overlapping
keys. -/
theorem civet_fetch_no_download_categories (cfg : Config) (env : FetchEnv)
    (hb : env.gitIsBranch cfg.branch = true) (ha : env.gitIsAuthor cfg.author = true)
    (hnd : (cfg.remotes.map Prod.fst).Nodup) :
    ((fetchPhase cfg env).2.1 = cfg.remotes.map (callOf cfg env)) ∧
    (∀ name cat, (name, cat) ∈ cfg.remotes → cat.download_test_results = some false →
        name ∉ (fetchPhase cfg env).2.2 ∧
        callOf cfg env (name, cat) =
          { localCache := cacheOf cfg cat, hashes := none,
            site := (cat.url, cat.repo),
            possible := ["OK", "FAIL", "DIFF", "TIMEOUT"] }) ∧
    ((fetchPhase cfg env).1 =
        (cfg.remotes.map (fun nc => env.getCivetResults (callOf cfg env nc))).foldl
          (fun acc e => dictUpdate acc e) []) ∧
    (∀ (d e : ResultStore) (k : String), (e.map Prod.fst).Nodup →
        dictGet (dictUpdate d e) k = (dictGet e k).or (dictGet d k)) := by
  have hcheck : (env.gitIsBranch cfg.branch && env.gitIsAuthor cfg.author) = true := by
    rw [hb, ha]
    rfl
  have hph : fetchPhase cfg env =
      ((cfg.remotes.map (fun nc => env.getCivetResults (callOf cfg env nc))).foldl
          (fun acc e => dictUpdate acc e) [],
       cfg.remotes.map (callOf cfg env),
       (cfg.remotes.filter (fun nc => downloadOf cfg nc.2)).map Prod.fst) := by
    rw [fetchPhase, if_pos hcheck, fetchFold_spec cfg env cfg.remotes [] [] []]
    simp
  refine ⟨by rw [hph], ?_, by rw [hph], ?_⟩
  case refine_2 =>
    intro d e k hk
    rw [dictGet_dictUpdate e d k hk]
    cases dictGet e k <;> rfl
  intro name cat hmem hdl
  have hdown : downloadOf cfg cat = false := by
    rw [downloadOf, hdl]
    rfl
  constructor
  · rw [hph]
    intro hin
    simp only [List.mem_map] at hin
    obtain ⟨nc2, hnc2, hname⟩ := hin
    have hnc2mem := List.mem_of_mem_filter hnc2
    have hget1 := (mem_iff_dictGet cfg.remotes hnd name cat).mp hmem
    have hget2 := (mem_iff_dictGet cfg.remotes hnd nc2.1 nc2.2).mp
      (by rw [show (nc2.1, nc2.2) = nc2 from rfl]; exact hnc2mem)
    rw [hname] at hget2
    rw [hget1] at hget2
    have hcat : nc2.2 = cat := by
      have := Option.some.inj hget2
      rw [this]
    have hfil := List.of_mem_filter hnc2
    rw [hcat] at hfil
    rw [hdown] at hfil
    exact Bool.noConfusion hfil
  · rw [callOf]
    simp only [hdown, Bool.false_eq_true, if_false]

/-- Witness for C7: one category with downloads disabled triggers no
hash lookup, one fetch call with hashes None and the fixed status set,
and its cached results populate the store. -/
theorem civet_fetch_no_download_categories_witness :
    (fetchPhase
      { remotes := [("cat",
          { location := none, download_test_results := some false,
            test_results_cache := none, url := "u", repo := "r" })],
        branch := "master", author := "moosetest",
        download_test_results := true, generate_test_reports := true,
        test_reports_location := "civet", test_results_cache := "cache" }
      { gitIsBranch := fun _ => true, gitIsAuthor := fun _ => true,
        rootDir := "root", gitCivetHashes := fun _ => ["h1"],
        getCivetResults := fun _ => [("x", [])] }).2.2 = [] ∧
    (fetchPhase
      { remotes := [("cat",
          { location := none, download_test_results := some false,
            test_results_cache := none, url := "u", repo := "r" })],
        branch := "master", author := "moosetest",
        download_test_results := true, generate_test_reports := true,
        test_reports_location := "civet", test_results_cache := "cache" }
      { gitIsBranch := fun _ => true, gitIsAuthor := fun _ => true,
        rootDir := "root", gitCivetHashes := fun _ => ["h1"],
        getCivetResults := fun _ => [("x", [])] }).2.1 =
      [{ localCache := "cache", hashes := none, site := ("u", "r"),
         possible := ["OK", "FAIL", "DIFF", "TIMEOUT"] }] ∧
    (fetchPhase
      { remotes := [("cat",
          { location := none, download_test_results := some false,
            test_results_cache := none, url := "u", repo := "r" })],
        branch := "master", author := "moosetest",
        download_test_results := true, generate_test_reports := true,
        test_reports_location := "civet", test_results_cache := "cache" }
      { gitIsBranch := fun _ => true, gitIsAuthor := fun _ => true,
        rootDir := "root", gitCivetHashes := fun _ => ["h1"],
        getCivetResults := fun _ => [("x", [])] }).1 = [("x", [])] := by
  have h := civet_fetch_no_download_categories
    { remotes := [("cat",
        { location := none, download_test_results := some false,
          test_results_cache := none, url := "u", repo := "r" })],
      branch := "master", author := "moosetest",
      download_test_results := true, generate_test_reports := true,
      test_reports_location := "civet", test_results_cache := "cache" }
    { gitIsBranch := fun _ => true, gitIsAuthor := fun _ => true,
      rootDir := "root", gitCivetHashes := fun _ => ["h1"],
      getCivetResults := fun _ => [("x", [])] }
    rfl rfl (by simp)
  refine ⟨?_, ?_, ?_⟩
  · rfl
  · rw [h.1]
    have h2 := (h.2.1 "cat"
      { location := none, download_test_results := some false,
        test_results_cache := none, url := "u", repo := "r" }
      (List.mem_singleton.mpr rfl) rfl).2
    rw [List.map_cons, List.map_nil, h2]
    rfl
  · rw [h.2.2.1]
    rfl

/-- Witness for the amended C8: at a concrete sha the emitted element is
a link. -/
theorem civet_results_no_remote_link_witness :
    Element.isLink (Element.link ("None/sha_events/None/" ++ "abc") (some "abc")) = true := by
  have h := civet_results_no_remote_link "abc" false
  exact h.2.2 _ h.2.1
